import Mathlib

/-!
Verification development for the `migration-extras` repository.

The repository migrates organizational assets (variables, secrets, teams,
packages, LFS objects) between two GitHub organizations.  This file gives a
shallow embedding of the migrators relevant to the specification claims and
proves or refutes those claims.

Modelling conventions:
* every outbound API call that mutates the target organization is recorded in
  an explicit trace (an inductive type of calls);
* answers of the remote platform (existence probes, pagination pages, created
  ids, download outcomes) are supplied as oracle arguments;
* JavaScript exceptions are modelled with `Except`, `undefined` with `Option`,
  and JS truthiness of numbers explicitly (`0` and `undefined` are falsy);
* each definition carries a comment naming the source file and lines it
  embeds.  The repository contains both a legacy top-level module and a
  refactored `migrations/` module for several resources; definitions taken
  from the legacy modules carry a `legacy` prefix.
-/

/- ===================== Variables (claim C1) ===================== -/

/-- A repository-level Actions variable, as returned by `listRepoVariables`. -/
structure RepoVariable where
  name : String
  value : String
deriving DecidableEq, Repr

/-- An organization-level Actions variable, as returned by `listOrgVariables`. -/
structure OrgVariable where
  name : String
  value : String
  visibility : String
  selected_repository_ids : List Nat
deriving DecidableEq, Repr

/-- Mutating calls issued to the target Octokit instance by the variable
migrators. -/
inductive VarCall where
  | createRepoVariable (repo name value : String)
  | createOrgVariable (name value visibility : String) (selected : List Nat)
deriving DecidableEq, Repr

/-- Target-mutating calls of the repo-variable branch of the legacy
`migrateVariables` (`src/variables.js`, first version, lines 24-53): the
`createRepoVariable` call sits inside `if (dryRun)`, so it is attempted
precisely when `dryRun` is `true`. -/
def legacyRepoVariableCalls (dryRun : Bool) (repo : String) (v : RepoVariable) : List VarCall :=
  if dryRun then [VarCall.createRepoVariable repo v.name v.value] else []

/-- Target-mutating calls of the org-variable branch of the legacy
`migrateVariables` (`src/variables.js`, first version, lines 75-105):
`createOrgVariable` is attempted precisely when `dryRun` is `false`. -/
def legacyOrgVariableCalls (dryRun : Bool) (v : OrgVariable) : List VarCall :=
  if !dryRun then
    [VarCall.createOrgVariable v.name v.value v.visibility v.selected_repository_ids]
  else []

/-- All target-mutating calls of one legacy `migrateVariables` run, given the
paginated source listings: the repositories with their variables, then the
organization variables. -/
def legacyMigrateVariablesCalls (dryRun : Bool)
    (repos : List (String × List RepoVariable)) (orgVars : List OrgVariable) : List VarCall :=
  (repos.map fun r => (r.2.map (legacyRepoVariableCalls dryRun r.1)).flatten).flatten
    ++ (orgVars.map (legacyOrgVariableCalls dryRun)).flatten

/-- Target-mutating calls of the refactored `migrateVariable`
(`src/variables.js`, second version, lines 207-224): `createRepoVariable` is
attempted precisely when `dryRun` is `false`. -/
def migrateVariableCalls (dryRun : Bool) (repo : String) (v : RepoVariable) : List VarCall :=
  if !dryRun then [VarCall.createRepoVariable repo v.name v.value] else []

/-- Target-mutating calls of the refactored `migrateOrgVariable`
(`src/variables.js`, second version, lines 259-277). -/
def migrateOrgVariableCalls (dryRun : Bool) (v : OrgVariable) : List VarCall :=
  if !dryRun then
    [VarCall.createOrgVariable v.name v.value v.visibility v.selected_repository_ids]
  else []

/- ===================== Teams (claims C3, C9, C10) ===================== -/

/-- Reference to a parent team inside a team record. -/
structure TeamRef where
  slug : String
  name : String
deriving DecidableEq, Repr

/-- A team as listed from the source organization. -/
structure Team where
  name : String
  slug : String
  description : String
  privacy : String
  permission : String
  parent : Option TeamRef
deriving DecidableEq, Repr

/-- The comparator of `sortTeamsByHierarchy` (`src/migrations/teams.js`,
lines 110-116; identical in `src/teams.js`, lines 17-21):
`1` when `a` is a direct child of `b`, `-1` when `b` is a direct child of
`a`, `0` otherwise. -/
def teamCmp (a b : Team) : Int :=
  if (a.parent.map TeamRef.slug) = some b.slug then 1
  else if (b.parent.map TeamRef.slug) = some a.slug then -1
  else 0

/-- The descending branch of V8 TimSort's `CountAndMakeRun`: starting after
`prev`, the run extends while each consecutive comparison
`cmp(current, previous)` is strictly negative.  Returns the extension of the
run and the elements after it. -/
def takeRunDesc (cmp : α → α → Int) : α → List α → List α × List α
  | _, [] => ([], [])
  | prev, x :: xs =>
    if cmp x prev < 0 then
      let r := takeRunDesc cmp x xs
      (x :: r.1, r.2)
    else ([], x :: xs)

/-- The ascending branch of V8 TimSort's `CountAndMakeRun`: the run extends
while each consecutive comparison `cmp(current, previous)` is at least
zero. -/
def takeRunAsc (cmp : α → α → Int) : α → List α → List α × List α
  | _, [] => ([], [])
  | prev, x :: xs =>
    if cmp x prev ≥ 0 then
      let r := takeRunAsc cmp x xs
      (x :: r.1, r.2)
    else ([], x :: xs)

/-- The binary search of V8 TimSort's `BinaryInsertionSort`: narrow
`[lo, hi)` with `mid = (lo + hi) / 2` (V8 writes `left + ((right - left) >>
1)`, which is the same), moving `hi` to `mid` when `cmp(pivot, a[mid]) < 0`
and `lo` to `mid + 1` otherwise; the result is the insertion index.  The
`getD` default is never read, since every probed index is below `hi`, which
the caller keeps at most the list length. -/
def binarySearchIdx (cmp : α → α → Int) (l : List α) (e : α) : Nat → Nat → Nat
  | lo, hi =>
    if h : lo < hi then
      if cmp e (l.getD ((lo + hi) / 2) e) < 0 then binarySearchIdx cmp l e lo ((lo + hi) / 2)
      else binarySearchIdx cmp l e ((lo + hi) / 2 + 1) hi
    else lo
termination_by lo hi => hi - lo
decreasing_by all_goals omega

/-- Array insertion at an index, as performed after the binary search. -/
def insertAt (idx : Nat) (a : α) (l : List α) : List α :=
  l.take idx ++ a :: l.drop idx

/-- V8 TimSort's `BinaryInsertionSort`: each pending element is inserted into
the sorted prefix at the index found by the binary search over the whole
prefix. -/
def binaryInsertionSort (cmp : α → α → Int) : List α → List α → List α
  | sorted, [] => sorted
  | sorted, x :: rest =>
    binaryInsertionSort cmp (insertAt (binarySearchIdx cmp sorted x 0 sorted.length) x sorted)
      rest

/-- Concrete model of `Array.prototype.sort` with a comparator: V8's TimSort
(Node's engine) for arrays shorter than 64 elements, where
`ComputeMinRunLength` returns the array length, so the algorithm is exactly
`CountAndMakeRun` — detect the initial run, comparing `cmp(a[i+1], a[i])`,
descending iff the first comparison is negative, continued while strictly
negative (descending) or non-negative (ascending), a descending run being
reversed — followed by one `BinaryInsertionSort` pass over the remaining
elements; no merge step runs because a single run remains.  (On an input
whose initial run already covers the whole array — the case of every theorem
below — full TimSort also performs no merge, so the model agrees with the
engine there at any length.) -/
def v8Sort (cmp : α → α → Int) : List α → List α
  | [] => []
  | [a] => [a]
  | a0 :: a1 :: rest =>
    if cmp a1 a0 < 0 then
      binaryInsertionSort cmp (a0 :: a1 :: (takeRunDesc cmp a1 rest).1).reverse
        (takeRunDesc cmp a1 rest).2
    else
      binaryInsertionSort cmp (a0 :: a1 :: (takeRunAsc cmp a1 rest).1)
        (takeRunAsc cmp a1 rest).2

/-- `sortTeamsByHierarchy` (`src/migrations/teams.js`, lines 110-116):
`teams.sort(comparator)` under the V8 TimSort model. -/
def sortTeamsByHierarchy (teams : List Team) : List Team :=
  v8Sort teamCmp teams

/-- Record stored in the in-memory `teamMap` for an already-processed team.
The `id` field models the JS number-or-undefined: `none` is `undefined`. -/
structure StoredTeam where
  id : Option Nat
deriving DecidableEq, Repr

/-- JS truthiness of the numeric `id` field read in
`parentTeam && parentTeam.id`: `undefined` and `0` are falsy. -/
def idTruthy : Option Nat → Bool
  | none => false
  | some n => n != 0

/-- Payload of a `teams.create` call. -/
structure NewTeamData where
  org : String
  name : String
  description : String
  privacy : String
  permission : String
  parent_team_id : Option Nat
deriving DecidableEq, Repr

/-- Mutating calls issued to the target Octokit instance by the team
migrators. -/
inductive TeamCall where
  | create (data : NewTeamData)
  | updateSyncGroupMappings (team_slug : String) (group_id : String)
  | addMembership (team_slug : String) (username : String) (role : String)
  | addRepoPermission (team_slug : String) (repo : String) (permission : String)
deriving DecidableEq, Repr

/-- The `newTeamData` object assembled by `createTeamInTargetOrg`
(`src/migrations/teams.js`, lines 235-248): `parent_team_id` is set only when
the team has a parent, the parent slug is in `teamMap`, and the stored id is
truthy. -/
def buildNewTeamData (targetOrg : String) (team : Team)
    (teamMap : List (String × StoredTeam)) : NewTeamData :=
  { org := targetOrg
    name := team.name
    description := team.description
    privacy := team.privacy
    permission := team.permission
    parent_team_id :=
      match team.parent with
      | none => none
      | some p =>
        match teamMap.lookup p.slug with
        | none => none
        | some parentTeam => if idTruthy parentTeam.id then parentTeam.id else none }

/-- Username substitution of `migrateTeamMembers`
(`src/migrations/teams.js`, line 276): the mapped login when present,
otherwise the original login. -/
def targetUsername (usernameMappings : List (String × String)) (login : String) : String :=
  (usernameMappings.lookup login).getD login

/-- `createTeamInTargetOrg` (`src/migrations/teams.js`, lines 233-262).
`createResult` is the destination's answer to `teams.create` (`none` models a
thrown error, which the function catches itself).  Returns the emitted calls
and the updated `teamMap`.  The slug of the created team is modelled as the
source slug. -/
def createTeamInTargetOrg (targetOrg : String) (team : Team)
    (teamMap : List (String × StoredTeam)) (createResult : Option Nat)
    (membersWithRoles : List (String × String))
    (repositories : List (String × String))
    (usernameMappings : List (String × String)) :
    List TeamCall × List (String × StoredTeam) :=
  let data := buildNewTeamData targetOrg team teamMap
  match createResult with
  | none => ([TeamCall.create data], teamMap)
  | some newId =>
    (TeamCall.create data
       :: (membersWithRoles.map fun m =>
            TeamCall.addMembership team.slug (targetUsername usernameMappings m.1) m.2)
       ++ repositories.map (fun r => TeamCall.addRepoPermission team.slug r.1 r.2),
     (team.slug, ⟨some newId⟩) :: teamMap)

/-- An IdP group as returned by `listIdpGroupsForOrg`. -/
structure IdpGroup where
  group_id : String
  group_name : String
deriving DecidableEq, Repr

/-- `findIdpGroupByName` (`src/teams.js`, lines 214-216): the body computes
`groups.find(...)` into a local constant but contains no return statement, so
the JS function always returns `undefined` (modelled as `none`). -/
def findIdpGroupByName (groups : List IdpGroup) (name : String) : Option IdpGroup :=
  let _matched := groups.find? fun g => g.group_name == name
  none

/-- The `newTeamData` object of the legacy `migrateTeams`
(`src/teams.js`, lines 78-91): unlike the refactored version, the stored id is
copied without a truthiness check once the parent is found in the map. -/
def legacyBuildNewTeamData (targetOrg : String) (team : Team)
    (teamMap : List (String × StoredTeam)) : NewTeamData :=
  { org := targetOrg
    name := team.name
    description := team.description
    privacy := team.privacy
    permission := team.permission
    parent_team_id :=
      match team.parent with
      | none => none
      | some p =>
        match teamMap.lookup p.slug with
        | none => none
        | some parentTeam => parentTeam.id }

/-- Target-mutating calls of the per-team body of the legacy `migrateTeams`
(`src/teams.js`, lines 56-146).  `envIdpGroupName` is the value of the
`<TEAM>_IDP_GROUP` environment variable, `createResult` the destination's
answer to `teams.create` (`none` models a thrown error, caught at line 143).
The created team's slug is modelled as the source slug. -/
def legacyProcessTeamCalls (dryRun : Bool) (targetOrg : String) (team : Team)
    (teamMap : List (String × StoredTeam)) (targetIdpGroups : List IdpGroup)
    (envIdpGroupName : Option String) (createResult : Option Nat)
    (membersWithRoles : List (String × String))
    (repos : List (String × String)) : List TeamCall :=
  let idpGroup : Option IdpGroup :=
    match envIdpGroupName with
    | some n => findIdpGroupByName targetIdpGroups n
    | none => none
  if dryRun then []
  else
    let data := legacyBuildNewTeamData targetOrg team teamMap
    match createResult with
    | none => [TeamCall.create data]
    | some _ =>
      TeamCall.create data
        :: (match idpGroup with
            | some g => [TeamCall.updateSyncGroupMappings team.slug g.group_id]
            | none => [])
        ++ membersWithRoles.map (fun m => TeamCall.addMembership team.slug m.1 m.2)
        ++ repos.map (fun r => TeamCall.addRepoPermission team.slug r.1 r.2)

/-- Recognizer for `updateSyncGroupMappings` calls. -/
def isUpdateSync : TeamCall → Bool
  | TeamCall.updateSyncGroupMappings _ _ => true
  | _ => false

/- ================ Packages (claims C2, C5, C6, C7, C8) ================ -/

/-- Calls issued while processing a package. -/
inductive PkgCall where
  | targetRepoGet (repo : String)
  | targetPackageGet (package_type : String) (package_name : String)
  | fetchVersions (package_name : String)
  | download (file : String)
  | upload (file : String)
deriving DecidableEq, Repr

/-- A package as listed from the source organization. -/
structure Pkg where
  name : String
  package_type : String
  repoName : String
deriving DecidableEq, Repr

/-- Call trace of `processPackage` (`src/migrations/packages.js`, lines
109-127).  The existence probes are answered by the oracles `repoExists`
(`checkTargetRepository`, lines 136-148) and `pkgExists`
(`checkPackageExistsInTarget`, lines 157-172); `versionCalls` are the calls
that `migratePackageVersions` would issue, reached only on the non-dry-run
path after both probes allow migration. -/
def processPackageCalls (pkg : Pkg) (repoExists pkgExists : Bool)
    (dryRun : Bool) (versionCalls : List PkgCall) : List PkgCall :=
  PkgCall.targetRepoGet pkg.repoName ::
    if !repoExists then []
    else
      PkgCall.targetPackageGet pkg.package_type pkg.name ::
        if pkgExists then []
        else
          PkgCall.fetchVersions pkg.name ::
            if dryRun then [] else versionCalls

/-- One page of the GraphQL `files` connection. -/
structure FilesPage where
  names : List String
  hasNextPage : Bool
  endCursor : Option String
deriving DecidableEq, Repr

/-- Answer of one iteration of the GraphQL query in
`listMavenPackageAssets`: package missing, version missing, a page of files,
or a thrown error. -/
inductive MavenResp where
  | noPackage
  | noVersion
  | page (p : FilesPage)
  | err (msg : String)
deriving DecidableEq, Repr

/-- The `while (hasNextPage)` pagination loop of `listMavenPackageAssets`
(`src/migrations/packages.js`, lines 662-697): responses of successive
queries are consumed in order; a missing package, a missing version or a
thrown error makes the function return `[]`, discarding the accumulator
(lines 677-686 and the catch block at lines 702-710).  The `[]` case is
unreachable for well-formed response sequences, whose last consumed page has
`hasNextPage = false`. -/
def mavenLoop : List MavenResp → List String → List String
  | [], acc => acc
  | MavenResp.noPackage :: _, _ => []
  | MavenResp.noVersion :: _, _ => []
  | MavenResp.err _ :: _, _ => []
  | MavenResp.page p :: rest, acc =>
    if p.hasNextPage then mavenLoop rest (acc ++ p.names) else acc ++ p.names

/-- `listMavenPackageAssets` (`src/migrations/packages.js`, lines 631-711),
as a function of the sequence of GraphQL responses. -/
def listMavenPackageAssets (resps : List MavenResp) : List String :=
  mavenLoop resps []

/-- The `dist` object of one version in an npm registry manifest. -/
structure NpmDist where
  tarball : String
deriving DecidableEq, Repr

/-- One version entry of an npm registry manifest; `dist = none` models a
version object without a `dist` field. -/
structure NpmVersionMeta where
  dist : Option NpmDist
deriving DecidableEq, Repr

/-- An npm registry manifest; `versions = none` models a response body
without a `versions` field. -/
structure NpmManifest where
  versions : Option (List (String × NpmVersionMeta))
deriving DecidableEq, Repr

/-- Last path segment: `tarball.split('/').pop(-1)` (the argument of `pop`
is ignored by JS). -/
def lastPathSegment (s : String) : String :=
  (s.splitOn "/").getLastD ""

/-- `listNPMPackageAssets` (`src/migrations/packages.js`, lines 591-613).
`httpResp = none` models a non-ok HTTP response, which is logged and turned
into `[]`; a missing version is logged and turned into `[]`; but reading
`npmJson.versions[v]` when `versions` is absent, or `version.dist.tarball`
when `dist` is absent, throws a TypeError that the function does not catch,
modelled as `Except.error`. -/
def listNPMPackageAssets (httpResp : Option NpmManifest) (ver : String) :
    Except String (List String) :=
  match httpResp with
  | none => Except.ok []
  | some m =>
    match m.versions with
    | none => Except.error "TypeError: cannot read properties of undefined"
    | some vs =>
      match vs.lookup ver with
      | none => Except.ok []
      | some meta =>
        match meta.dist with
        | none => Except.error "TypeError: cannot read properties of undefined"
        | some d => Except.ok [lastPathSegment d.tarball]

/-- The `container` object of a container version's metadata. -/
structure ContainerInfo where
  tags : List String
deriving DecidableEq, Repr

/-- Metadata of a container version; `container = none` models a metadata
object without a `container` field. -/
structure ContainerMetadata where
  container : Option ContainerInfo
deriving DecidableEq, Repr

/-- A container package version; `metadata = none` models a version object
without a `metadata` field. -/
structure ContainerVersion where
  metadata : Option ContainerMetadata
deriving DecidableEq, Repr

/-- `listContainerPackageAssets` (`src/migrations/packages.js`, lines
615-621): `version.metadata.container.tags` is read with no error handling,
so a missing level throws a TypeError; otherwise the tags are returned
most-recent-first as `name:tag` identifiers. -/
def listContainerPackageAssets (package_name : String) (version : ContainerVersion) :
    Except String (List String) :=
  match version.metadata with
  | none => Except.error "TypeError: cannot read properties of undefined"
  | some md =>
    match md.container with
    | none => Except.error "TypeError: cannot read properties of undefined"
    | some info => Except.ok (info.tags.reverse.map fun tag => package_name ++ ":" ++ tag)

/-- Leading-decimal-digits parser, modelling `parseInt` on the strings that
occur here (`none` models `NaN`). -/
def parseDec (s : String) : Option Nat :=
  let ds := s.data.takeWhile Char.isDigit
  if ds.isEmpty then none
  else some (ds.foldl (fun n c => n * 10 + (c.toNat - 48)) 0)

/-- The concurrency limit `parseInt(process.env.MAVEN_CONCURRENCY || '5')`
(`src/migrations/packages.js`, line 302); an unset or empty environment
variable falls back to the string `'5'`. -/
def mavenConcurrency (env : Option String) : Option Nat :=
  parseDec (match env with
            | none => "5"
            | some s => if s = "" then "5" else s)

/-- The chunking loop of `downloadMavenFilesParallel`
(`src/migrations/packages.js`, lines 304-309): slices of length `c` starting
at indices 0, c, 2c, ....  For `c ≥ 1` this equals the JS loop; the JS loop
does not terminate for `c = 0`. -/
def chunksOf (c : Nat) : List α → List (List α)
  | [] => []
  | x :: xs => (x :: xs).take c :: chunksOf c (xs.drop (c - 1))
termination_by l => l.length
decreasing_by simp; omega

/-- The `for (const chunk of chunks) { await Promise.all(...) }` loop of
`downloadMavenFilesParallel` (`src/migrations/packages.js`, lines 314-338):
every file of a batch is attempted; a failing download is logged and
re-thrown (line 335), so `Promise.all` rejects, the loop aborts and the
function throws.  Returns the attempted files and whether the loop ran to
completion. -/
def runBatches (ok : String → Bool) : List (List String) → List String × Bool
  | [] => ([], true)
  | chunk :: rest =>
    if chunk.all ok then
      let r := runBatches ok rest
      (chunk ++ r.1, r.2)
    else (chunk, false)

/-- `downloadMavenFilesParallel` (`src/migrations/packages.js`, lines
301-341) at concurrency `c`, with per-file download outcomes given by the
oracle `ok`. -/
def downloadMavenFilesParallel (c : Nat) (ok : String → Bool) (files : List String) :
    List String × Bool :=
  runBatches ok (chunksOf c files)

/-- The files uploaded by the non-dry-run Maven branch of
`migratePackageVersion` (`src/migrations/packages.js`, lines 260-265):
`uploadMavenFilesParallel` runs on the full `filesToDownload` list, but only
if `downloadMavenFilesParallel` returned without throwing. -/
def mavenVersionUploadSet (c : Nat) (ok : String → Bool) (files : List String) : List String :=
  if (downloadMavenFilesParallel c ok files).2 then files else []

/-- The per-version loop of `migratePackageVersions`
(`src/migrations/packages.js`, lines 202-210): versions are processed in
reverse order; each iteration is wrapped in its own try/catch, so every
version is attempted regardless of earlier failures.  Records each attempted
version with its outcome. -/
def migratePackageVersionsOutcomes (migrate : String → Except String Unit)
    (versions : List String) : List (String × Bool) :=
  versions.reverse.map fun v =>
    (v, match migrate v with
        | Except.ok _ => true
        | Except.error _ => false)

/-- The legacy download loop of `migratePackages`
(`src/packages.js`, lines 140-147): `downloadFile` reports failure through
its boolean result, but the loop pushes every file onto `filesToUpload`
unconditionally. -/
def legacyFilesToUpload (downloadOk : String → Bool) (filesToDownload : List String) :
    List String :=
  (filesToDownload.map fun file =>
    let _success := downloadOk file
    file)

/- ===================== Secrets (claim C4) ===================== -/

/-- The standard base64 alphabet, as used by `Buffer` encoding/decoding. -/
def b64Alphabet : List Char :=
  "ABCDEFGHIJKLMNOPQRSTUVWXYZabcdefghijklmnopqrstuvwxyz0123456789+/".data

/-- Character of a 6-bit value. -/
def b64Char (n : Nat) : Char :=
  b64Alphabet.getD n 'A'

/-- Value of a base64 character. -/
def b64Val (c : Char) : Nat :=
  b64Alphabet.indexOf c

/-- Base64 encoding of a byte list, three bytes per four characters, with
RFC 4648 padding; models `Buffer.from(bytes).toString('base64')`. -/
def base64EncodeGroups : List Nat → List Char
  | [] => []
  | [b1] => [b64Char (b1 / 4), b64Char (b1 % 4 * 16), '=', '=']
  | [b1, b2] => [b64Char (b1 / 4), b64Char (b1 % 4 * 16 + b2 / 16), b64Char (b2 % 16 * 4), '=']
  | b1 :: b2 :: b3 :: rest =>
    b64Char (b1 / 4) :: b64Char (b1 % 4 * 16 + b2 / 16) :: b64Char (b2 % 16 * 4 + b3 / 64)
      :: b64Char (b3 % 64) :: base64EncodeGroups rest

/-- Base64 decoding of a character list, four characters per three bytes,
honouring padding; models `Buffer.from(s, 'base64')`. -/
def base64DecodeGroups : List Char → List Nat
  | c1 :: c2 :: c3 :: c4 :: rest =>
    let d1 := b64Val c1
    let d2 := b64Val c2
    if c3 = '=' then [d1 * 4 + d2 / 16]
    else
      let d3 := b64Val c3
      if c4 = '=' then [d1 * 4 + d2 / 16, d2 % 16 * 16 + d3 / 4]
      else (d1 * 4 + d2 / 16) :: (d2 % 16 * 16 + d3 / 4) :: (d3 % 4 * 64 + b64Val c4)
        :: base64DecodeGroups rest
  | _ => []

/-- String-level base64 encoding. -/
def base64Encode (bs : List Nat) : String :=
  String.mk (base64EncodeGroups bs)

/-- String-level base64 decoding. -/
def base64Decode (s : String) : List Nat :=
  base64DecodeGroups s.data

/-- Abstract sealed-box public-key encryption (libsodium `crypto_box_seal`):
`seal` takes the recipient's public-key bytes and the message bytes,
`openSeal` takes the recipient's private-key bytes and the ciphertext. -/
structure SealScheme where
  crypto_box_seal : List Nat → List Nat → List Nat
  crypto_box_seal_open : List Nat → List Nat → Option (List Nat)

/-- A public-key response of `getOrgPublicKey` / `getRepoPublicKey`: a
base64-encoded key and its id. -/
structure PublicKeyResp where
  key : String
  key_id : String
deriving DecidableEq, Repr

/-- One row of the `secrets_to_migrate.csv` staging file.  The `value` field
holds the UTF-8 bytes of the CSV `value` column. -/
structure SecretRow where
  type : String
  repo : String
  name : String
  value : List Nat
deriving DecidableEq, Repr

/-- Calls issued while processing one secret row. -/
inductive SecretCall where
  | getRepoPublicKey (repo : String)
  | getOrgSecretSource (name : String)
  | createRepoSecret (repo : String) (secret_name : String)
      (encrypted_value : String) (key_id : String)
  | createOrgSecret (secret_name : String) (encrypted_value : String)
      (key_id : String) (visibility : String)
deriving DecidableEq, Repr

/-- Key selection of the per-secret loop (`src/secrets.js`, lines 125-135):
the per-repository public key when `type` is `repo`, the organization public
key otherwise. -/
def secretPublicKey (orgKey : PublicKeyResp) (repoKey : String → PublicKeyResp)
    (row : SecretRow) : PublicKeyResp :=
  if row.type = "repo" then repoKey row.repo else orgKey

/-- Per-secret body of `migrateSecretsWithDryRunCheck`
(`src/secrets.js`, lines 120-167; the refactored `processSecret` in
`src/migrations/secrets.js`, lines 168-185, behaves identically): choose the
public key by scope, seal the plaintext bytes under the base64-decoded key,
and send only the base64 ciphertext together with the key id.  `srcVisibility`
answers the `getOrgSecret` visibility lookup for org-scoped secrets. -/
def processSecret (S : SealScheme) (orgKey : PublicKeyResp)
    (repoKey : String → PublicKeyResp) (srcVisibility : String → String)
    (row : SecretRow) : List SecretCall :=
  let publicKey := secretPublicKey orgKey repoKey row
  let encryptedValue := base64Encode (S.crypto_box_seal (base64Decode publicKey.key) row.value)
  (if row.type = "repo" then [SecretCall.getRepoPublicKey row.repo] else [])
    ++ (if row.type = "repo" then
          [SecretCall.createRepoSecret row.repo row.name encryptedValue publicKey.key_id]
        else if row.type = "org" then
          [SecretCall.getOrgSecretSource row.name,
           SecretCall.createOrgSecret row.name encryptedValue publicKey.key_id
             (srcVisibility row.name)]
        else [])

/-- The `(encrypted_value, key_id)` payloads of the create calls in a trace. -/
def createPayloads : List SecretCall → List (String × String)
  | [] => []
  | SecretCall.createRepoSecret _ _ e k :: rest => (e, k) :: createPayloads rest
  | SecretCall.createOrgSecret _ e k _ :: rest => (e, k) :: createPayloads rest
  | _ :: rest => createPayloads rest

/-- A concrete sealed-box instance used to witness the secret-migration
theorem: a byte-wise shift keyed by the first key byte. -/
def demoSealScheme : SealScheme where
  crypto_box_seal := fun pk m => m.map fun b => (b + pk.headD 0 + 1) % 256
  crypto_box_seal_open := fun sk c => some (c.map fun b => (b + 256 - sk.headD 0 % 256) % 256)

/- =================== Concrete fixtures for witnesses =================== -/

/-- Fixture: a root team (no parent). -/
def teamGrand : Team :=
  { name := "p", slug := "p", description := "", privacy := "closed",
    permission := "pull", parent := none }

/-- Fixture: a team whose parent is `teamGrand`. -/
def teamMid : Team :=
  { name := "t", slug := "t", description := "", privacy := "closed",
    permission := "pull", parent := some ⟨"p", "p"⟩ }

/-- Fixture: a team unrelated to the others (no parent, distinct slug). -/
def teamX : Team :=
  { name := "x", slug := "x", description := "", privacy := "closed",
    permission := "pull", parent := none }

/-- Fixture: a team whose parent is `teamMid`. -/
def teamLeaf : Team :=
  { name := "c", slug := "c", description := "", privacy := "closed",
    permission := "pull", parent := some ⟨"t", "t"⟩ }

/- ========================== Theorems ========================== -/

/-- C1: the specification requires zero target-mutating calls in dry-run
mode, but the legacy `migrateVariables` has the guard inverted: with
`dryRun = true` and a single source repository variable it invokes
`createRepoVariable` on the target Octokit instance, while the refactored
`migrateVariable` correctly issues no call. -/
theorem legacy_dry_run_emits_create_call :
    legacyMigrateVariablesCalls true [("app", [⟨"FOO", "bar"⟩])] []
        = [VarCall.createRepoVariable "app" "FOO" "bar"]
      ∧ legacyMigrateVariablesCalls true [("app", [⟨"FOO", "bar"⟩])] [] ≠ []
      ∧ migrateVariableCalls true "app" ⟨"FOO", "bar"⟩ = [] := by
  refine ⟨rfl, ?_, rfl⟩
  decide

/-- C5: when both destination probes answer positively (the repository exists
and the package already exists at the target), `processPackage` returns right
after the package probe: the trace is exactly the two probes, so no versions
are fetched, nothing is downloaded and no upload call is made, for every
package, dry-run flag and would-be version calls. -/
theorem package_exists_skips_migration (pkg : Pkg) (dryRun : Bool)
    (versionCalls : List PkgCall) :
    processPackageCalls pkg true true dryRun versionCalls
        = [PkgCall.targetRepoGet pkg.repoName,
           PkgCall.targetPackageGet pkg.package_type pkg.name]
      ∧ (∀ p, PkgCall.fetchVersions p ∉ processPackageCalls pkg true true dryRun versionCalls)
      ∧ (∀ f, PkgCall.download f ∉ processPackageCalls pkg true true dryRun versionCalls)
      ∧ (∀ f, PkgCall.upload f ∉ processPackageCalls pkg true true dryRun versionCalls) := by
  refine ⟨rfl, ?_, ?_, ?_⟩ <;> intro x <;> simp [processPackageCalls]

/-- C10: `findIdpGroupByName` has no return statement and therefore returns
`undefined` for every group list and name; consequently the legacy team
migrator never issues an `updateSyncGroupMappings` call, even when the
environment variable names an IdP group present in the target list. -/
theorem find_idp_group_always_undefined
    (groups : List IdpGroup) (name : String)
    (dryRun : Bool) (targetOrg : String) (team : Team)
    (teamMap : List (String × StoredTeam)) (envIdpGroupName : Option String)
    (createResult : Option Nat) (members repos : List (String × String)) :
    findIdpGroupByName groups name = none
      ∧ ∀ c ∈ legacyProcessTeamCalls dryRun targetOrg team teamMap groups
            envIdpGroupName createResult members repos, isUpdateSync c = false := by
  refine ⟨rfl, ?_⟩
  intro c hc
  unfold legacyProcessTeamCalls at hc
  cases envIdpGroupName <;> cases dryRun <;> cases createResult <;>
    simp [findIdpGroupByName] at hc
  all_goals
    rcases hc with rfl | ⟨a, b, hm, rfl⟩ | ⟨a, b, hr, rfl⟩ <;> rfl

/-- C2 counterexample: concurrency 5, files `a` and `b`, and only the
download of `a` failing.  The claim predicts that `b` alone is excluded from
nothing and still uploaded; the code uploads no file at all for that package
version, because the per-file download error is logged and then re-thrown,
aborting the version before its upload phase. -/
theorem maven_failed_download_uploads_nothing :
    mavenVersionUploadSet 5 (fun f => f != "a") ["a", "b"] = []
      ∧ List.filter (fun f => f != "a") ["a", "b"] = ["b"]
      ∧ mavenVersionUploadSet 5 (fun f => f != "a") ["a", "b"]
          ≠ List.filter (fun f => f != "a") ["a", "b"] := by
  refine ⟨?_, rfl, ?_⟩ <;>
    simp [mavenVersionUploadSet, downloadMavenFilesParallel, chunksOf, runBatches]

/-- C3 counterexample: for the listing `[teamMid, teamX, teamGrand]` (the
child, an unrelated team, then the parent), every comparison the engine
performs returns 0, so the listing forms a single non-descending run and is
returned unchanged: the child `teamMid` stays before its parent `teamGrand`,
refuting the claim that the sorted order always puts a parent before its
migrated child. -/
theorem team_sort_unrelated_gap_unchanged :
    teamMid.parent = some ⟨"p", "p"⟩
      ∧ teamGrand.slug = "p"
      ∧ sortTeamsByHierarchy [teamMid, teamX, teamGrand]
          = [teamMid, teamX, teamGrand]
      ∧ ¬ [teamGrand, teamMid].Sublist (sortTeamsByHierarchy [teamMid, teamX, teamGrand]) := by
  refine ⟨rfl, rfl, by decide, by decide⟩

/-- C7 counterexample: a container package version whose record lacks the
`metadata` field makes `listContainerPackageAssets` throw a TypeError that
propagates, instead of returning an empty asset list with a warning as the
claim states for every resolver failure. -/
theorem container_resolver_propagates_error :
    listContainerPackageAssets "pkg" ⟨none⟩
        = Except.error "TypeError: cannot read properties of undefined"
      ∧ listContainerPackageAssets "pkg" ⟨none⟩ ≠ Except.ok [] := by
  refine ⟨rfl, ?_⟩
  intro h
  simp [listContainerPackageAssets] at h

/- ================= Chunking and batch lemmas (C2, C8) ================= -/

/-- Base case of the chunking loop. -/
theorem chunksOf_nil (c : Nat) : chunksOf c ([] : List α) = [] := by
  rw [chunksOf]

/-- Step case of the chunking loop. -/
theorem chunksOf_cons (c : Nat) (x : α) (xs : List α) :
    chunksOf c (x :: xs) = (x :: xs).take c :: chunksOf c (xs.drop (c - 1)) := by
  rw [chunksOf]

/-- Concatenating the chunks restores the original list. -/
theorem flatten_chunksOf (c : Nat) (hc : 0 < c) : ∀ l : List α, (chunksOf c l).flatten = l
  | [] => by rw [chunksOf_nil]; rfl
  | x :: xs => by
    obtain ⟨n, rfl⟩ : ∃ n, c = n + 1 := ⟨c - 1, by omega⟩
    rw [chunksOf_cons, List.flatten_cons, flatten_chunksOf (n + 1) hc (xs.drop (n + 1 - 1))]
    rw [show n + 1 - 1 = n by omega, List.take_succ_cons, List.cons_append,
      List.take_append_drop]
termination_by l => l.length
decreasing_by simp; omega

/-- There are exactly ceiling(N / c) chunks. -/
theorem length_chunksOf (c : Nat) (hc : 0 < c) :
    ∀ l : List α, (chunksOf c l).length = (l.length + c - 1) / c
  | [] => by
    rw [chunksOf_nil]
    symm
    apply Nat.div_eq_of_lt
    simp; omega
  | x :: xs => by
    obtain ⟨n, rfl⟩ : ∃ n, c = n + 1 := ⟨c - 1, by omega⟩
    rw [chunksOf_cons, List.length_cons,
      length_chunksOf (n + 1) hc (xs.drop (n + 1 - 1))]
    rw [show n + 1 - 1 = n by omega, List.length_drop, List.length_cons]
    have hr : xs.length + 1 + (n + 1) - 1 = xs.length + (n + 1) := by omega
    rw [hr, Nat.add_div_right _ (by omega)]
    rcases Nat.lt_or_ge xs.length n with h | h
    · have h1 : xs.length - n + (n + 1) - 1 = n := by omega
      rw [h1, Nat.div_eq_of_lt (by omega), Nat.div_eq_of_lt (by omega)]
    · have h1 : xs.length - n + (n + 1) - 1 = xs.length := by omega
      rw [h1]
termination_by l => l.length
decreasing_by simp; omega

/-- Every chunk has at most c elements. -/
theorem length_le_of_mem_chunksOf (c : Nat) :
    ∀ l : List α, ∀ ch ∈ chunksOf c l, ch.length ≤ c
  | [] => by rw [chunksOf_nil]; intro ch hch; cases hch
  | x :: xs => by
    intro ch hch
    rw [chunksOf_cons] at hch
    rcases List.mem_cons.mp hch with rfl | h
    · simp [List.length_take_le]
    · exact length_le_of_mem_chunksOf c (xs.drop (c - 1)) ch h
termination_by l => l.length
decreasing_by simp; omega

/-- The download loop completes exactly when every batch is fully
successful. -/
theorem runBatches_completes (ok : String → Bool) :
    ∀ chs : List (List String), (runBatches ok chs).2 = chs.all fun ch => ch.all ok
  | [] => rfl
  | ch :: rest => by
    rw [runBatches]
    cases hall : ch.all ok
    · simp [hall]
    · simp [hall, runBatches_completes ok rest]

/-- The attempted downloads are the fully successful leading batches in
order, followed by the whole first failing batch (if any); later batches are
never started. -/
theorem runBatches_attempted (ok : String → Bool) :
    ∀ chs : List (List String),
      (runBatches ok chs).1
        = (chs.takeWhile fun ch => ch.all ok).flatten
            ++ ((chs.dropWhile fun ch => ch.all ok).headD [])
  | [] => rfl
  | ch :: rest => by
    rw [runBatches]
    cases hall : ch.all ok
    · simp [hall, List.takeWhile_cons, List.dropWhile_cons]
    · simp [hall, List.takeWhile_cons, List.dropWhile_cons,
        runBatches_attempted ok rest, List.append_assoc]

/-- Predicate transfer between chunk-wise and element-wise success. -/
theorem all_flatten_eq (p : α → Bool) :
    ∀ ls : List (List α), ls.flatten.all p = ls.all fun l => l.all p
  | [] => rfl
  | l :: ls => by simp [List.all_append, all_flatten_eq p ls]

/-- Download-phase success is element-wise success of all files. -/
theorem downloadMavenFilesParallel_completes (c : Nat) (hc : 0 < c)
    (ok : String → Bool) (files : List String) :
    (downloadMavenFilesParallel c ok files).2 = files.all ok := by
  rw [downloadMavenFilesParallel, runBatches_completes, ← all_flatten_eq,
    flatten_chunksOf c hc]

/-- C8: for every file list and every concurrency c > 0 the download loop
partitions the list into exactly ceiling(N / c) batches of size at most c
whose concatenation is the original list; batches are processed strictly in
order, a batch is fully attempted before anything later, and a later batch
starts only after every download of the earlier batches succeeded; the
concurrency defaults to 5 when MAVEN_CONCURRENCY is unset. -/
theorem maven_download_chunking (c : Nat) (hc : 0 < c) (files : List String)
    (ok : String → Bool) :
    (chunksOf c files).length = (files.length + c - 1) / c
      ∧ (∀ ch ∈ chunksOf c files, ch.length ≤ c)
      ∧ (chunksOf c files).flatten = files
      ∧ (downloadMavenFilesParallel c ok files).1
          = ((chunksOf c files).takeWhile fun ch => ch.all ok).flatten
              ++ (((chunksOf c files).dropWhile fun ch => ch.all ok).headD [])
      ∧ mavenConcurrency none = some 5 :=
  ⟨length_chunksOf c hc files, length_le_of_mem_chunksOf c files,
   flatten_chunksOf c hc files, runBatches_attempted ok (chunksOf c files), rfl⟩

/-- C8 witness: the default concurrency 5 on seven files, with the download
of file `f6` failing: two batches, of sizes 5 and 2, both attempted in
order. -/
theorem maven_download_chunking_witness :
    0 < 5
      ∧ (chunksOf 5 ["f1", "f2", "f3", "f4", "f5", "f6", "f7"]).length = (7 + 5 - 1) / 5
      ∧ (∀ ch ∈ chunksOf 5 ["f1", "f2", "f3", "f4", "f5", "f6", "f7"], ch.length ≤ 5)
      ∧ (chunksOf 5 ["f1", "f2", "f3", "f4", "f5", "f6", "f7"]).flatten
          = ["f1", "f2", "f3", "f4", "f5", "f6", "f7"]
      ∧ (downloadMavenFilesParallel 5 (fun f => f != "f6")
            ["f1", "f2", "f3", "f4", "f5", "f6", "f7"]).1
          = ((chunksOf 5 ["f1", "f2", "f3", "f4", "f5", "f6", "f7"]).takeWhile fun ch =>
                ch.all (fun f => f != "f6")).flatten
              ++ (((chunksOf 5 ["f1", "f2", "f3", "f4", "f5", "f6", "f7"]).dropWhile fun ch =>
                    ch.all (fun f => f != "f6")).headD [])
      ∧ mavenConcurrency none = some 5 :=
  ⟨by decide,
   maven_download_chunking 5 (by decide) ["f1", "f2", "f3", "f4", "f5", "f6", "f7"]
     (fun f => f != "f6")⟩

/-- C2 (amended): a failed Maven download is caught and logged per-file but
then re-thrown, so the batch's Promise.all rejects and the whole
package-version upload phase is skipped: the upload set is the full file
list when every download succeeded and empty otherwise, never "all but the
failed file".  The error propagates to the per-version try/catch, so every
remaining version of the package is still attempted.  The legacy migrator
ignores the download result entirely and keeps every file, including failed
ones, in its upload set. -/
theorem maven_download_failure_aborts_version (c : Nat) (hc : 0 < c)
    (ok : String → Bool) (files : List String)
    (migrate : String → Except String Unit) (versions : List String) :
    mavenVersionUploadSet c ok files = (if files.all ok then files else [])
      ∧ (downloadMavenFilesParallel c ok files).2 = files.all ok
      ∧ (migratePackageVersionsOutcomes migrate versions).map Prod.fst = versions.reverse
      ∧ legacyFilesToUpload ok files = files := by
  refine ⟨?_, downloadMavenFilesParallel_completes c hc ok files, ?_, ?_⟩
  · rw [mavenVersionUploadSet, downloadMavenFilesParallel_completes c hc ok files]
  · simp [migratePackageVersionsOutcomes, Function.comp_def]
  · simp [legacyFilesToUpload]

/-- C2 witness: concurrency 5, files `a` and `b` with the download of `a`
failing, and two versions one of which throws. -/
theorem maven_download_failure_aborts_version_witness :
    0 < 5
      ∧ mavenVersionUploadSet 5 (fun f => f != "a") ["a", "b"]
          = (if (["a", "b"].all fun f => f != "a") then ["a", "b"] else [])
      ∧ (downloadMavenFilesParallel 5 (fun f => f != "a") ["a", "b"]).2
          = (["a", "b"].all fun f => f != "a")
      ∧ (migratePackageVersionsOutcomes
            (fun v => if v = "1.0.0" then Except.error "boom" else Except.ok ())
            ["1.0.0", "2.0.0"]).map Prod.fst
          = ["1.0.0", "2.0.0"].reverse
      ∧ legacyFilesToUpload (fun f => f != "a") ["a", "b"] = ["a", "b"] :=
  ⟨by decide,
   maven_download_failure_aborts_version 5 (by decide) (fun f => f != "a") ["a", "b"]
     (fun v => if v = "1.0.0" then Except.error "boom" else Except.ok ()) ["1.0.0", "2.0.0"]⟩

/- ================= Pagination lemmas (C6, C7) ================= -/

/-- Accumulator form of the pagination loop over a chain of pages whose last
page has no next page. -/
theorem mavenLoop_pages : ∀ (ps : List FilesPage) (acc : List String),
    (∀ p ∈ ps, p.hasNextPage = true) → ∀ q : FilesPage, q.hasNextPage = false →
    mavenLoop (ps.map MavenResp.page ++ [MavenResp.page q]) acc
      = acc ++ (ps.map FilesPage.names).flatten ++ q.names
  | [], acc, _, q, hq => by simp [mavenLoop, hq]
  | p :: ps, acc, hps, q, hq => by
    have hp : p.hasNextPage = true := hps p (by simp)
    simp only [List.map_cons, List.cons_append, mavenLoop, hp, if_true, List.append_eq]
    rw [mavenLoop_pages ps (acc ++ p.names) (fun r hr => hps r (by simp [hr])) q hq]
    simp [List.append_assoc]

/-- A thrown error in any iteration of the pagination loop discards the
accumulator and yields the empty list. -/
theorem mavenLoop_err (msg : String) (rest : List MavenResp) :
    ∀ (ps : List FilesPage) (acc : List String), (∀ p ∈ ps, p.hasNextPage = true) →
    mavenLoop (ps.map MavenResp.page ++ MavenResp.err msg :: rest) acc = []
  | [], acc, _ => by simp [mavenLoop]
  | p :: ps, acc, hps => by
    have hp : p.hasNextPage = true := hps p (by simp)
    simp only [List.map_cons, List.cons_append, mavenLoop, hp, if_true, List.append_eq]
    exact mavenLoop_err msg rest ps (acc ++ p.names) fun r hr => hps r (by simp [hr])

/-- C6: the Maven/Gradle asset listing returns the concatenation, in page
order, of the file names of every page, repeating the query until a page
reports hasNextPage = false; in particular a short page with
hasNextPage = true does not terminate the listing. -/
theorem maven_assets_concat_all_pages (ps : List FilesPage) (q : FilesPage)
    (hps : ∀ p ∈ ps, p.hasNextPage = true) (hq : q.hasNextPage = false) :
    listMavenPackageAssets (ps.map MavenResp.page ++ [MavenResp.page q])
      = (ps.map FilesPage.names).flatten ++ q.names := by
  have h := mavenLoop_pages ps [] hps q hq
  simpa [listMavenPackageAssets] using h

/-- C6 witness: a first page holding a single file (far fewer than 100) with
hasNextPage = true is followed up, and the two pages are concatenated in
order. -/
theorem maven_assets_concat_all_pages_witness :
    (∀ p ∈ [FilesPage.mk ["a1"] true (some "c1")], p.hasNextPage = true)
      ∧ FilesPage.hasNextPage ⟨["b1", "b2"], false, none⟩ = false
      ∧ listMavenPackageAssets
          [MavenResp.page ⟨["a1"], true, some "c1"⟩, MavenResp.page ⟨["b1", "b2"], false, none⟩]
          = ["a1", "b1", "b2"] := by
  refine ⟨by decide, rfl, ?_⟩
  have h := maven_assets_concat_all_pages [⟨["a1"], true, some "c1"⟩]
    ⟨["b1", "b2"], false, none⟩ (by decide) rfl
  simpa using h

/-- C7 (amended): the Maven/Gradle resolver turns every failure (missing
package, missing version, thrown error, also mid-pagination) into an empty
asset list; the npm resolver turns a non-ok HTTP response or a missing
version entry into an empty list but lets a TypeError (manifest without a
versions field) propagate; the container resolver has no failure handling
and propagates a TypeError when a metadata level is missing; a propagated
error reaches the per-version try/catch of migratePackageVersions, so the
remaining versions are still attempted. -/
theorem asset_resolver_failure_policy :
    (∀ rest : List MavenResp, listMavenPackageAssets (MavenResp.noPackage :: rest) = [])
      ∧ (∀ rest : List MavenResp, listMavenPackageAssets (MavenResp.noVersion :: rest) = [])
      ∧ (∀ (ps : List FilesPage) (msg : String) (rest : List MavenResp),
          (∀ p ∈ ps, p.hasNextPage = true) →
          listMavenPackageAssets (ps.map MavenResp.page ++ MavenResp.err msg :: rest) = [])
      ∧ (∀ v, listNPMPackageAssets none v = Except.ok [])
      ∧ (∀ (vs : List (String × NpmVersionMeta)) (v : String), vs.lookup v = none →
          listNPMPackageAssets (some ⟨some vs⟩) v = Except.ok [])
      ∧ (∀ v, ∃ msg, listNPMPackageAssets (some ⟨none⟩) v = Except.error msg)
      ∧ (∀ n, ∃ msg, listContainerPackageAssets n ⟨none⟩ = Except.error msg)
      ∧ (∀ (migrate : String → Except String Unit) (versions : List String),
          (migratePackageVersionsOutcomes migrate versions).map Prod.fst
            = versions.reverse) := by
  refine ⟨fun rest => rfl, fun rest => rfl, ?_, fun v => rfl, ?_, ?_, ?_, ?_⟩
  · intro ps msg rest hps
    exact mavenLoop_err msg rest ps [] hps
  · intro vs v hlk
    simp [listNPMPackageAssets, hlk]
  · intro v
    exact ⟨_, rfl⟩
  · intro n
    exact ⟨_, rfl⟩
  · intro migrate versions
    simp [migratePackageVersionsOutcomes, Function.comp_def]

/-- C7 witness: concrete failure inputs for each resolver. -/
theorem asset_resolver_failure_policy_witness :
    listMavenPackageAssets [MavenResp.noPackage] = []
      ∧ listMavenPackageAssets
          [MavenResp.page ⟨["a1"], true, some "c1"⟩, MavenResp.err "boom"] = []
      ∧ listNPMPackageAssets (some ⟨some [("1.0.0", ⟨some ⟨"x/y.tgz"⟩⟩)]⟩) "2.0.0"
          = Except.ok []
      ∧ (∃ msg, listContainerPackageAssets "pkg" ⟨none⟩ = Except.error msg) := by
  refine ⟨asset_resolver_failure_policy.1 [], ?_, ?_, ?_⟩
  · have h := asset_resolver_failure_policy.2.2.1 [⟨["a1"], true, some "c1"⟩] "boom" []
      (by decide)
    simpa using h
  · exact asset_resolver_failure_policy.2.2.2.2.1 [("1.0.0", ⟨some ⟨"x/y.tgz"⟩⟩)] "2.0.0"
      (by decide)
  · exact asset_resolver_failure_policy.2.2.2.2.2.2.1 "pkg"

/- ===================== Parent linkage (C9) ===================== -/

/-- C9: for a team with a parent, the create payload carries a parent link
exactly when the parent slug is mapped in the in-memory team map to a record
with a truthy destination id; when the mapping is missing the team is still
created, with no parent link, and the function raises no error (the create
call is always the first emitted call). -/
theorem parent_link_iff_mapped (targetOrg : String) (team : Team)
    (teamMap : List (String × StoredTeam)) (p : TeamRef)
    (hp : team.parent = some p) :
    (∀ i : Nat,
        (buildNewTeamData targetOrg team teamMap).parent_team_id = some i
          ↔ ∃ rec, teamMap.lookup p.slug = some rec ∧ rec.id = some i ∧ i ≠ 0)
      ∧ (teamMap.lookup p.slug = none →
          (buildNewTeamData targetOrg team teamMap).parent_team_id = none)
      ∧ ∀ (createResult : Option Nat) (members repos mappings : List (String × String)),
          (createTeamInTargetOrg targetOrg team teamMap createResult members repos
              mappings).1.head?
            = some (TeamCall.create (buildNewTeamData targetOrg team teamMap)) := by
  refine ⟨?_, ?_, ?_⟩
  · intro i
    simp only [buildNewTeamData, hp]
    cases hlk : teamMap.lookup p.slug with
    | none => simp
    | some rec =>
      cases hrec : rec.id with
      | none => simp [idTruthy, hrec]
      | some n =>
        by_cases hn : n = 0
        · subst hn
          simp [idTruthy, hrec]
          omega
        · simp [idTruthy, hrec, hn]
          omega
  · intro hlk
    simp [buildNewTeamData, hp, hlk]
  · intro createResult members repos mappings
    cases createResult <;> rfl

/-- C9 witness: a team whose parent slug `p` is mapped to destination id 7. -/
theorem parent_link_iff_mapped_witness :
    teamMid.parent = some ⟨"p", "p"⟩
      ∧ ((∀ i : Nat,
            (buildNewTeamData "dst" teamMid [("p", ⟨some 7⟩)]).parent_team_id = some i
              ↔ ∃ rec, List.lookup "p" [("p", (⟨some 7⟩ : StoredTeam))] = some rec
                  ∧ rec.id = some i ∧ i ≠ 0)
          ∧ (List.lookup "p" [("p", (⟨some 7⟩ : StoredTeam))] = none →
              (buildNewTeamData "dst" teamMid [("p", ⟨some 7⟩)]).parent_team_id = none)
          ∧ ∀ (createResult : Option Nat) (members repos mappings : List (String × String)),
              (createTeamInTargetOrg "dst" teamMid [("p", ⟨some 7⟩)] createResult members
                  repos mappings).1.head?
                = some (TeamCall.create (buildNewTeamData "dst" teamMid [("p", ⟨some 7⟩)]))) :=
  ⟨rfl, parent_link_iff_mapped "dst" teamMid [("p", ⟨some 7⟩)] ⟨"p", "p"⟩ rfl⟩

/- ===================== Sort order lemmas (C3) ===================== -/

/-- The comparator answers -1 for a parent compared against its child,
provided the pair is not also related the other way round. -/
theorem teamCmp_eq_neg_one {a b : Team}
    (h1 : ¬ b.parent.map TeamRef.slug = some a.slug)
    (h2 : a.parent.map TeamRef.slug = some b.slug) : teamCmp b a = -1 := by
  rw [teamCmp, if_neg h1, if_pos h2]

/-- Along a child-to-parent chain, the descending run detection consumes the
whole remainder of the listing. -/
theorem takeRunDesc_chain :
    ∀ (rest : List Team) (prev : Team),
      List.Chain' (fun a b => a.parent.map TeamRef.slug = some b.slug
          ∧ ¬ b.parent.map TeamRef.slug = some a.slug) (prev :: rest) →
      takeRunDesc teamCmp prev rest = (rest, [])
  | [], _, _ => rfl
  | x :: xs, prev, h => by
    obtain ⟨hrel, htail⟩ := List.chain'_cons.mp h
    rw [takeRunDesc,
      if_pos (show teamCmp x prev < 0 by rw [teamCmp_eq_neg_one hrel.2 hrel.1]; decide),
      takeRunDesc_chain xs x htail]

/-- C3 (amended): under the V8 TimSort model of `Array.prototype.sort`, the
comparator sort reorders a parent before its child only when the comparator
actually surfaces their relation to the engine: a listing that is a pure
child-to-parent chain (each team's parent is the next team listed — in
particular the two-element listing [T, P]) is detected as one descending run
and reversed, placing every parent before its child; but as the
counterexample shows, a single unrelated team between T and its parent P
already makes every performed comparison 0, the listing forms one
non-descending run and is returned unchanged, with T still before P — so
even one level of nesting is not guaranteed in general. -/
theorem team_sort_reverses_parent_chain (l : List Team)
    (hchain : List.Chain' (fun a b => a.parent.map TeamRef.slug = some b.slug
        ∧ ¬ b.parent.map TeamRef.slug = some a.slug) l) :
    sortTeamsByHierarchy l = l.reverse
      ∧ ∀ T P : Team, [T, P].Sublist l → [P, T].Sublist (sortTeamsByHierarchy l) := by
  have hmain : sortTeamsByHierarchy l = l.reverse := by
    match l, hchain with
    | [], _ => rfl
    | [a], _ => rfl
    | a0 :: a1 :: rest, hchain =>
      obtain ⟨hrel, htail⟩ := List.chain'_cons.mp hchain
      rw [sortTeamsByHierarchy, v8Sort,
        if_pos (show teamCmp a1 a0 < 0 by rw [teamCmp_eq_neg_one hrel.2 hrel.1]; decide),
        takeRunDesc_chain rest a1 htail]
      rfl
  refine ⟨hmain, ?_⟩
  intro T P hsub
  rw [hmain]
  simpa using hsub.reverse

/-- C3 witness: a two-element listing, the child immediately followed by its
parent, is reversed. -/
theorem team_sort_reverses_parent_chain_witness :
    List.Chain' (fun a b => a.parent.map TeamRef.slug = some b.slug
        ∧ ¬ b.parent.map TeamRef.slug = some a.slug) [teamMid, teamGrand]
      ∧ sortTeamsByHierarchy [teamMid, teamGrand] = [teamMid, teamGrand].reverse
      ∧ [teamGrand, teamMid].Sublist (sortTeamsByHierarchy [teamMid, teamGrand]) := by
  have hch : List.Chain' (fun a b => a.parent.map TeamRef.slug = some b.slug
      ∧ ¬ b.parent.map TeamRef.slug = some a.slug) [teamMid, teamGrand] :=
    List.chain'_cons.mpr ⟨⟨by decide, by decide⟩, List.chain'_singleton teamGrand⟩
  have h := team_sort_reverses_parent_chain [teamMid, teamGrand] hch
  exact ⟨hch, h.1, h.2 teamMid teamGrand (by decide)⟩

/- ===================== Base64 and secrets lemmas (C4) ===================== -/

/-- Unfolding lemma for one decoded group. -/
theorem base64DecodeGroups_cons4 (c1 c2 c3 c4 : Char) (rest : List Char) :
    base64DecodeGroups (c1 :: c2 :: c3 :: c4 :: rest)
      = if c3 = '=' then [b64Val c1 * 4 + b64Val c2 / 16]
        else if c4 = '=' then
          [b64Val c1 * 4 + b64Val c2 / 16, b64Val c2 % 16 * 16 + b64Val c3 / 4]
        else (b64Val c1 * 4 + b64Val c2 / 16) :: (b64Val c2 % 16 * 16 + b64Val c3 / 4)
          :: (b64Val c3 % 4 * 64 + b64Val c4) :: base64DecodeGroups rest := rfl

/-- The alphabet lookup inverts the alphabet indexing on 6-bit values. -/
theorem b64Val_b64Char_fin : ∀ d : Fin 64, b64Val (b64Char d.val) = d.val := by decide

/-- No 6-bit value is encoded as the padding character. -/
theorem b64Char_ne_pad_fin : ∀ d : Fin 64, b64Char d.val ≠ '=' := by decide

/-- The alphabet lookup inverts the alphabet indexing on 6-bit values. -/
theorem b64Val_b64Char {d : Nat} (hd : d < 64) : b64Val (b64Char d) = d :=
  b64Val_b64Char_fin ⟨d, hd⟩

/-- No 6-bit value is encoded as the padding character. -/
theorem b64Char_ne_pad {d : Nat} (hd : d < 64) : b64Char d ≠ '=' :=
  b64Char_ne_pad_fin ⟨d, hd⟩

/-- Decoding inverts encoding on byte lists. -/
theorem base64_groups_roundtrip : ∀ bs : List Nat, (∀ b ∈ bs, b < 256) →
    base64DecodeGroups (base64EncodeGroups bs) = bs
  | [], _ => rfl
  | [b1], h => by
    have hb1 : b1 < 256 := h b1 (by simp)
    show base64DecodeGroups [b64Char (b1 / 4), b64Char (b1 % 4 * 16), '=', '='] = [b1]
    rw [base64DecodeGroups_cons4, if_pos rfl,
      b64Val_b64Char (show b1 / 4 < 64 by omega),
      b64Val_b64Char (show b1 % 4 * 16 < 64 by omega)]
    simp only [List.cons.injEq, and_true]
    omega
  | [b1, b2], h => by
    have hb1 : b1 < 256 := h b1 (by simp)
    have hb2 : b2 < 256 := h b2 (by simp)
    show base64DecodeGroups
        [b64Char (b1 / 4), b64Char (b1 % 4 * 16 + b2 / 16), b64Char (b2 % 16 * 4), '=']
      = [b1, b2]
    rw [base64DecodeGroups_cons4,
      if_neg (b64Char_ne_pad (show b2 % 16 * 4 < 64 by omega)), if_pos rfl,
      b64Val_b64Char (show b1 / 4 < 64 by omega),
      b64Val_b64Char (show b1 % 4 * 16 + b2 / 16 < 64 by omega),
      b64Val_b64Char (show b2 % 16 * 4 < 64 by omega)]
    simp only [List.cons.injEq, and_true]
    constructor <;> omega
  | b1 :: b2 :: b3 :: bs, h => by
    have hb1 : b1 < 256 := h b1 (by simp)
    have hb2 : b2 < 256 := h b2 (by simp)
    have hb3 : b3 < 256 := h b3 (by simp)
    have ih := base64_groups_roundtrip bs fun b hb => h b (by simp [hb])
    show base64DecodeGroups
        (b64Char (b1 / 4) :: b64Char (b1 % 4 * 16 + b2 / 16)
          :: b64Char (b2 % 16 * 4 + b3 / 64) :: b64Char (b3 % 64)
          :: base64EncodeGroups bs)
      = b1 :: b2 :: b3 :: bs
    rw [base64DecodeGroups_cons4,
      if_neg (b64Char_ne_pad (show b2 % 16 * 4 + b3 / 64 < 64 by omega)),
      if_neg (b64Char_ne_pad (show b3 % 64 < 64 by omega)),
      b64Val_b64Char (show b1 / 4 < 64 by omega),
      b64Val_b64Char (show b1 % 4 * 16 + b2 / 16 < 64 by omega),
      b64Val_b64Char (show b2 % 16 * 4 + b3 / 64 < 64 by omega),
      b64Val_b64Char (show b3 % 64 < 64 by omega), ih]
    simp only [List.cons.injEq, and_true, true_and]
    refine ⟨by omega, by omega, by omega⟩

/-- String-level inversion. -/
theorem base64_roundtrip (bs : List Nat) (h : ∀ b ∈ bs, b < 256) :
    base64Decode (base64Encode bs) = bs :=
  base64_groups_roundtrip bs h

/-- C4: for every CSV secret row of scope repo or org, the single create call
sent to the destination carries exactly the base64 encoding of the sealed-box
ciphertext together with the key id of the scope's public key (the
per-repository key for repo rows, the organization key otherwise) and never
the plaintext; decoding the transmitted field yields the ciphertext, which
decrypts under the matching private key to exactly the original value. -/
theorem secret_create_payload_sealed (S : SealScheme) (orgKey : PublicKeyResp)
    (repoKey : String → PublicKeyResp) (srcVisibility : String → String)
    (row : SecretRow) (pk : PublicKeyResp) (cipher : List Nat)
    (hty : row.type = "repo" ∨ row.type = "org")
    (hpk : pk = secretPublicKey orgKey repoKey row)
    (hcipher : cipher = S.crypto_box_seal (base64Decode pk.key) row.value)
    (hbytes : ∀ b ∈ cipher, b < 256) :
    createPayloads (processSecret S orgKey repoKey srcVisibility row)
        = [(base64Encode cipher, pk.key_id)]
      ∧ base64Decode (base64Encode cipher) = cipher
      ∧ (∀ sk, S.crypto_box_seal_open sk cipher = some row.value →
          S.crypto_box_seal_open sk (base64Decode (base64Encode cipher)) = some row.value)
      ∧ (cipher ≠ row.value → base64Decode (base64Encode cipher) ≠ row.value) := by
  have hrt := base64_roundtrip cipher hbytes
  refine ⟨?_, hrt, ?_, ?_⟩
  · subst hpk
    subst hcipher
    rcases hty with h | h <;>
      simp [processSecret, createPayloads, secretPublicKey, h]
  · intro sk hopen
    rw [hrt]
    exact hopen
  · intro hne
    rw [hrt]
    exact hne

/-- C4 witness: an org-scoped secret with plaintext byte 7 under the demo
scheme with public key bytes 3 (base64 `Aw==`): the payload is the base64
ciphertext `Cw==` with the org key id, and private key bytes 4 recover the
plaintext. -/
theorem secret_create_payload_sealed_witness :
    base64Encode [11] = "Cw=="
      ∧ (createPayloads (processSecret demoSealScheme ⟨"Aw==", "key1"⟩
            (fun _ => ⟨"Bw==", "rk"⟩) (fun _ => "all") ⟨"org", "", "API_KEY", [7]⟩)
          = [(base64Encode [11], "key1")]
        ∧ base64Decode (base64Encode [11]) = [11]
        ∧ (∀ sk, demoSealScheme.crypto_box_seal_open sk [11] = some [7] →
            demoSealScheme.crypto_box_seal_open sk (base64Decode (base64Encode [11]))
              = some [7])
        ∧ ([11] ≠ [7] → base64Decode (base64Encode [11]) ≠ [7])) :=
  ⟨by decide,
   secret_create_payload_sealed demoSealScheme ⟨"Aw==", "key1"⟩ (fun _ => ⟨"Bw==", "rk"⟩)
     (fun _ => "all") ⟨"org", "", "API_KEY", [7]⟩ ⟨"Aw==", "key1"⟩ [11]
     (Or.inr rfl) (by decide) (by decide) (by decide)⟩

/-- C5 witness: a concrete already-migrated package with a non-empty list of
would-be version calls, in live mode. -/
theorem package_exists_skips_migration_witness :
    processPackageCalls ⟨"widget", "maven", "widget-repo"⟩ true true false
        [PkgCall.download "widget-1.2.0.jar"]
        = [PkgCall.targetRepoGet "widget-repo", PkgCall.targetPackageGet "maven" "widget"]
      ∧ PkgCall.fetchVersions "widget"
          ∉ processPackageCalls ⟨"widget", "maven", "widget-repo"⟩ true true false
              [PkgCall.download "widget-1.2.0.jar"]
      ∧ PkgCall.download "widget-1.2.0.jar"
          ∉ processPackageCalls ⟨"widget", "maven", "widget-repo"⟩ true true false
              [PkgCall.download "widget-1.2.0.jar"]
      ∧ PkgCall.upload "widget-1.2.0.jar"
          ∉ processPackageCalls ⟨"widget", "maven", "widget-repo"⟩ true true false
              [PkgCall.download "widget-1.2.0.jar"] :=
  have h := package_exists_skips_migration ⟨"widget", "maven", "widget-repo"⟩ false
    [PkgCall.download "widget-1.2.0.jar"]
  ⟨h.1, h.2.1 "widget", h.2.2.1 "widget-1.2.0.jar", h.2.2.2 "widget-1.2.0.jar"⟩

/-- C10 witness: an environment variable naming an IdP group that does exist
in the target list still yields no group and no sync call. -/
theorem find_idp_group_always_undefined_witness :
    findIdpGroupByName [⟨"g1", "DEV_TEAM"⟩] "DEV_TEAM" = none
      ∧ isUpdateSync (TeamCall.create (legacyBuildNewTeamData "dst" teamGrand [])) = false :=
  have h := find_idp_group_always_undefined [⟨"g1", "DEV_TEAM"⟩] "DEV_TEAM" false "dst"
    teamGrand [] (some "DEV_TEAM") (some 5) [] []
  ⟨h.1, h.2 (TeamCall.create (legacyBuildNewTeamData "dst" teamGrand [])) (by decide)⟩
